import Mathlib

/-
Verification development for the Smart Timetable repository.

The repository sources under inspection are the React frontend components
(GeneratorPage, RoomList, FacultyList).  The timetable generation engine
itself is absent from the available sources, so it is modelled from the
specification; every such definition is marked accordingly.
-/

namespace Timetable

/-- Modelled from the spec: the Faculty entity of the data model, section 3.
The engine sources are missing from the repository snapshot. -/
structure Faculty where
  fid : Nat
  qualifiedSubjects : List Nat
  maxHoursPerWeek : Nat
  unavailability : List (Nat × Nat)
deriving DecidableEq, Repr

/-- Modelled from the spec: the Subject entity of the data model, section 3. -/
structure Subject where
  sid : Nat
  sessionsPerWeek : Nat
  duration : Nat
deriving DecidableEq, Repr

/-- Modelled from the spec: the Room entity of the data model, section 3. -/
structure Room where
  rid : Nat
  capacity : Nat
deriving DecidableEq, Repr

/-- Modelled from the spec: the Batch entity of the data model, section 3. -/
structure Batch where
  bid : Nat
  strength : Nat
  subjectIds : List Nat
deriving DecidableEq, Repr

/-- Modelled from the spec: the snapshot of raw records handed to the engine,
together with the fixed time grid (working days times ordered slots per day). -/
structure Input where
  faculties : List Faculty
  subjects : List Subject
  rooms : List Room
  batches : List Batch
  days : Nat
  slotsPerDay : Nat
deriving Repr

/-- Modelled from the spec: a session unit, one required lecture occurrence of
a (Batch, Subject) pair awaiting a (Faculty, Room, day, slot) assignment. -/
structure SessionUnit where
  batchId : Nat
  subjectId : Nat
  duration : Nat
  strength : Nat
deriving DecidableEq, Repr

/-- Modelled from the spec: an assignment, the atomic decision of the search.
The duration of the underlying session is carried along for hour accounting. -/
structure Assignment where
  batchId : Nat
  subjectId : Nat
  facultyId : Nat
  roomId : Nat
  day : Nat
  slot : Nat
  duration : Nat
deriving DecidableEq, Repr

/-- Modelled from the spec: the Schedule response record of section 6. -/
structure Schedule where
  assignments : List Assignment
  totalSlots : Nat
  assignedSlots : Nat
  conflicts : Nat
deriving DecidableEq, Repr

/-- Modelled from the spec: the ModelError taxonomy of sections 4.1 and 7. -/
inductive ModelError where
  | noQualifiedFaculty
  | strengthExceedsAllRooms
  | unknownSubjectRef
deriving DecidableEq, Repr

/-- Modelled from the spec: the typed model produced by the Entity Model
Builder, owning the expanded session-unit list. -/
structure Model where
  inp : Input
  units : List SessionUnit
deriving Repr

/-- Modelled from the spec: the generate options of section 6. -/
structure GenOpts where
  maxAlternatives : Nat
  timeLimit : Nat
  backtrackBudget : Nat
  seed : Nat
deriving Repr

/-- Total duration of the sessions a given faculty id carries in a partial
assignment list. -/
def hoursOf (committed : List Assignment) (fid : Nat) : Nat :=
  ((committed.filter fun a => decide (a.facultyId = fid)).map fun a => a.duration).sum

/-- Whether the faculty id already has a session at the given day and slot. -/
def busyF (committed : List Assignment) (fid d s : Nat) : Bool :=
  committed.any fun a => decide (a.facultyId = fid ∧ a.day = d ∧ a.slot = s)

/-- Whether the room id already has a session at the given day and slot. -/
def busyR (committed : List Assignment) (rid d s : Nat) : Bool :=
  committed.any fun a => decide (a.roomId = rid ∧ a.day = d ∧ a.slot = s)

/-- Whether the batch id already has a session at the given day and slot. -/
def busyB (committed : List Assignment) (bid d s : Nat) : Bool :=
  committed.any fun a => decide (a.batchId = bid ∧ a.day = d ∧ a.slot = s)

/-- The discrete coordinate space of the time grid, in grid order. -/
def gridSlots (days slotsPerDay : Nat) : List (Nat × Nat) :=
  (List.range days).flatMap fun d => (List.range slotsPerDay).map fun s => (d, s)

/-- Insertion of one element into a list sorted by a Boolean comparison. -/
def insertB (le : α → α → Bool) (a : α) : List α → List α
  | [] => [a]
  | b :: l => if le a b then a :: b :: l else b :: insertB le a l

/-- Stable insertion sort by a Boolean comparison, used for the deterministic
candidate tie-break orders of section 4.3. -/
def isortB (le : α → α → Bool) : List α → List α
  | [] => []
  | a :: l => insertB le a (isortB le l)

/-- Lexicographic comparison of Nat pairs, as a Boolean. -/
def pairLE (p q : Nat × Nat) : Bool :=
  decide (p.1 < q.1) || (decide (p.1 = q.1) && decide (p.2 ≤ q.2))

/-- Modelled from the spec: faculty tie-break order, currently lowest
assigned-hour count first, then identifier. -/
def sortFaculties (committed : List Assignment) (fs : List Faculty) : List Faculty :=
  isortB (fun f g => pairLE (hoursOf committed f.fid, f.fid) (hoursOf committed g.fid, g.fid)) fs

/-- Modelled from the spec: room tie-break order, smallest sufficient capacity
first, then identifier. -/
def sortRooms (rs : List Room) : List Room :=
  isortB (fun r q => pairLE (r.capacity, r.rid) (q.capacity, q.rid)) rs

/-- Builds the assignment record committed for a session unit. -/
def mkAssign (u : SessionUnit) (f : Faculty) (r : Room) (d s : Nat) : Assignment :=
  ⟨u.batchId, u.subjectId, f.fid, r.rid, d, s, u.duration⟩

/-- Modelled from the spec: the structural feasibility check of section 4.3,
enforcing hard constraints 1 to 7 against the current partial assignment. -/
def feasibleB (committed : List Assignment) (u : SessionUnit)
    (f : Faculty) (r : Room) (d s : Nat) : Bool :=
  decide (u.subjectId ∈ f.qualifiedSubjects) &&
  !(decide ((d, s) ∈ f.unavailability)) &&
  decide (hoursOf committed f.fid + u.duration ≤ f.maxHoursPerWeek) &&
  !(busyF committed f.fid d s) &&
  decide (u.strength ≤ r.capacity) &&
  !(busyR committed r.rid d s) &&
  !(busyB committed u.batchId d s)

/-- Modelled from the spec: the candidate assignments for one session unit,
the cross-product of qualified available faculty, sufficient free rooms and
free grid slots, in the stable tie-break order of section 4.3. -/
def candidatesFor (inp : Input) (committed : List Assignment) (u : SessionUnit) :
    List Assignment :=
  (sortFaculties committed inp.faculties).flatMap fun f =>
    (sortRooms inp.rooms).flatMap fun r =>
      (gridSlots inp.days inp.slotsPerDay).filterMap fun ds =>
        if feasibleB committed u f r ds.1 ds.2 then some (mkAssign u f r ds.1 ds.2)
        else none

/-- Rotation of a list, used to perturb the tie-break order for alternative
schedule generation as described in section 4.3. -/
def rotateL (k : Nat) (l : List α) : List α :=
  l.drop (k % l.length) ++ l.take (k % l.length)

/-- Modelled from the spec: the depth-first backtracking search of section
4.3 over the ordered session units.  The result is the sequence of partial
assignments visited, in deterministic visit order; the perturbation index k
rotates every candidate list. -/
def dfs (inp : Input) (k : Nat) : List SessionUnit → List Assignment → List (List Assignment)
  | [], committed => [committed]
  | u :: rest, committed =>
      committed ::
        (rotateL k (candidatesFor inp committed u)).flatMap fun a =>
          dfs inp k rest (committed ++ [a])

/-- Modelled from the spec: static constraint count of one session unit, used
by the most-constrained-first ordering heuristic. -/
def unitDegree (inp : Input) (u : SessionUnit) : Nat :=
  (inp.faculties.filter fun f => decide (u.subjectId ∈ f.qualifiedSubjects)).length *
  (inp.rooms.filter fun r => decide (u.strength ≤ r.capacity)).length *
  (inp.days * inp.slotsPerDay)

/-- Modelled from the spec: deterministic most-constrained-first ordering of
the session units (stable, hence reproducible for identical input). -/
def orderUnits (inp : Input) (units : List SessionUnit) : List SessionUnit :=
  isortB (fun u v => decide (unitDegree inp u ≤ unitDegree inp v)) units

/-- Modelled from the spec: expansion of the raw records into individual
unscheduled session units, one per required weekly session. -/
def expandUnits (inp : Input) : List SessionUnit :=
  inp.batches.flatMap fun b =>
    b.subjectIds.flatMap fun sid =>
      (inp.subjects.filter fun s => decide (s.sid = sid)).flatMap fun s =>
        List.replicate s.sessionsPerWeek ⟨b.bid, s.sid, s.duration, b.strength⟩

/-- Whether some subject has no qualified faculty in the input set. -/
def hasUnqualifiedSubject (inp : Input) : Bool :=
  inp.subjects.any fun s =>
    !(inp.faculties.any fun f => decide (s.sid ∈ f.qualifiedSubjects))

/-- Whether some batch has a strength exceeding every room capacity. -/
def hasOversizedBatch (inp : Input) : Bool :=
  inp.batches.any fun b => !(inp.rooms.any fun r => decide (b.strength ≤ r.capacity))

/-- Whether some batch references a subject identifier that is not present. -/
def hasBrokenRef (inp : Input) : Bool :=
  inp.batches.any fun b =>
    b.subjectIds.any fun sid => !(inp.subjects.any fun s => decide (s.sid = sid))

/-- Modelled from the spec: the Entity Model Builder of section 4.1.  Fails
with ModelError exactly on the three unsatisfiable-input conditions, before
any search is attempted; otherwise produces the typed model. -/
def buildModel (inp : Input) : Except ModelError Model :=
  if hasUnqualifiedSubject inp then .error .noQualifiedFaculty
  else if hasOversizedBatch inp then .error .strengthExceedsAllRooms
  else if hasBrokenRef inp then .error .unknownSubjectRef
  else .ok ⟨inp, orderUnits inp (expandUnits inp)⟩

/-- Keeps the partial assignment covering more session units; ties keep the
earlier-found one, preserving determinism. -/
def better (a b : List Assignment) : List Assignment :=
  if a.length < b.length then b else a

/-- The best partial assignment of a visit sequence. -/
def bestOf (l : List (List Assignment)) : List Assignment :=
  l.foldl better []

/-- Modelled from the spec: one bounded search run.  The fuel bounds the
explored prefix of the deterministic visit sequence (backtrack budget and
time limit both extend it); the best partial assignment found is returned,
never an error, as demanded by section 7. -/
def runSearch (m : Model) (fuel k : Nat) : List Assignment :=
  bestOf ((dfs m.inp k m.units []).take fuel)

/-- Derived statistics of a run, section 4.4: full demand, committed count,
and residual conflicts counted as unmet demand. -/
def mkSchedule (m : Model) (asg : List Assignment) : Schedule :=
  ⟨asg, m.units.length, asg.length, m.units.length - asg.length⟩

/-- The combined exploration bound of a request. -/
def fuelOf (o : GenOpts) : Nat :=
  o.backtrackBudget + o.timeLimit + 1

/-- Perturbation indices of the runs of one request: the primary run is
always unperturbed; alternatives perturb by the seed. -/
def ksOf (o : GenOpts) : List Nat :=
  0 :: (List.range (o.maxAlternatives - 1)).map fun j => o.seed + j + 1

/-- Deduplication keeping first occurrences. -/
def dedupAux [DecidableEq α] (seen : List α) : List α → List α
  | [] => []
  | x :: xs => if x ∈ seen then dedupAux seen xs else x :: dedupAux (x :: seen) xs

/-- Deduplication of the alternative runs by assignment-set equality. -/
def dedupFirst [DecidableEq α] (l : List α) : List α :=
  dedupAux [] l

/-- Modelled from the spec: the single synchronous engine operation of
section 6, building the model and running the primary search plus perturbed
reruns for alternatives, deduplicated. -/
def generate (inp : Input) (o : GenOpts) : Except ModelError (List Schedule) :=
  (buildModel inp).map fun m =>
    (dedupFirst ((ksOf o).map fun k => runSearch m (fuelOf o) k)).map (mkSchedule m)

/-- The primary schedule of a generation request, when the model builds. -/
def primaryOut (inp : Input) (o : GenOpts) : Option Schedule :=
  match generate inp o with
  | Except.ok scheds => scheds.head?
  | Except.error _ => none

/-- A session unit faithfully sourced from a batch and a subject of the input. -/
def SrcUnit (inp : Input) (u : SessionUnit) : Prop :=
  ∃ b ∈ inp.batches, ∃ s ∈ inp.subjects,
    u.batchId = b.bid ∧ u.strength = b.strength ∧
    u.subjectId = s.sid ∧ u.duration = s.duration

/-- No two assignments of the list agree on the given resource key and on the
(day, slot) pair: the no-double-booking shape of hard constraints 1 to 3. -/
def NoClashBy (key : Assignment → Nat) (l : List Assignment) : Prop :=
  l.Pairwise fun a b => ¬(key a = key b ∧ a.day = b.day ∧ a.slot = b.slot)

/-- One assignment satisfies hard constraints 4 to 6 against the input:
capacity, qualification and availability. -/
def WellFormedAsg (inp : Input) (a : Assignment) : Prop :=
  (∃ f ∈ inp.faculties, f.fid = a.facultyId ∧
    a.subjectId ∈ f.qualifiedSubjects ∧ (a.day, a.slot) ∉ f.unavailability) ∧
  (∃ r ∈ inp.rooms, ∃ b ∈ inp.batches,
    r.rid = a.roomId ∧ b.bid = a.batchId ∧ b.strength ≤ r.capacity)

/-- Every faculty of the input is within its weekly hour cap, constraint 7. -/
def HoursOK (inp : Input) (l : List Assignment) : Prop :=
  ∀ f ∈ inp.faculties, hoursOf l f.fid ≤ f.maxHoursPerWeek

instance (key : Assignment → Nat) (l : List Assignment) : Decidable (NoClashBy key l) :=
  decidable_of_iff (l.Pairwise fun a b => ¬(key a = key b ∧ a.day = b.day ∧ a.slot = b.slot))
    Iff.rfl

instance (inp : Input) (a : Assignment) : Decidable (WellFormedAsg inp a) :=
  decidable_of_iff ((∃ f ∈ inp.faculties, f.fid = a.facultyId ∧
      a.subjectId ∈ f.qualifiedSubjects ∧ (a.day, a.slot) ∉ f.unavailability) ∧
    (∃ r ∈ inp.rooms, ∃ b ∈ inp.batches,
      r.rid = a.roomId ∧ b.bid = a.batchId ∧ b.strength ≤ r.capacity)) Iff.rfl

instance (inp : Input) (l : List Assignment) : Decidable (HoursOK inp l) :=
  decidable_of_iff (∀ f ∈ inp.faculties, hoursOf l f.fid ≤ f.maxHoursPerWeek) Iff.rfl

/-- A small satisfiable input used to exercise the engine on concrete runs:
one faculty, one subject needing two sessions, one room, one batch, a grid
of one day with two slots. -/
def sampleInput : Input :=
  ⟨[⟨0, [0], 10, []⟩], [⟨0, 2, 1⟩], [⟨0, 40⟩], [⟨0, 30, [0]⟩], 1, 2⟩

/-- Concrete options for the sample runs. -/
def sampleOpts : GenOpts :=
  ⟨1, 0, 10, 0⟩

/-- The schedule the engine produces on the sample input. -/
def sampleSched : Schedule :=
  ⟨[⟨0, 0, 0, 0, 0, 0, 1⟩, ⟨0, 0, 0, 0, 0, 1, 1⟩], 2, 2, 0⟩

/-- Scenario B of section 8 of the spec: batch strength 50, only a room of
capacity 40 available. -/
def scenarioB : Input :=
  ⟨[⟨0, [0], 10, []⟩], [⟨0, 1, 1⟩], [⟨0, 40⟩], [⟨0, 50, [0]⟩], 5, 8⟩

end Timetable

namespace Frontend

/-- The schedule object of the generate response body as GeneratorPage.js
reads it; an absent field models both a missing key and a null value. -/
structure RespSchedule where
  totalSlots : Option Nat
  assignedSlots : Option Nat
  conflicts : Option Nat
deriving DecidableEq, Repr

/-- The response body of a successful generate request. -/
structure GenResponseBody where
  schedule : Option RespSchedule
deriving DecidableEq, Repr

/-- The generation statistics recorded by the page (the wall-clock time is
real time and is not modelled). -/
structure GenStats where
  totalSlots : Nat
  assignedSlots : Nat
  conflicts : Nat
deriving DecidableEq, Repr

/-- The page state touched by handleGenerate in GeneratorPage.js. -/
structure PageState where
  timetable : Option RespSchedule
  generationStats : Option GenStats
  errorMsg : String
deriving DecidableEq, Repr

/-- The JavaScript fallback x || d on an optional number: undefined, null
and the falsy number 0 all select the fallback. -/
def jsOrNat : Option Nat → Nat → Nat
  | some n, d => if n = 0 then d else n
  | none, d => d

/-- The JavaScript fallback x || d on an optional string: undefined, null
and the falsy empty string all select the fallback. -/
def jsOrStr : Option String → String → String
  | some s, d => if s = "" then d else s
  | none, d => d

/-- Outcome of the awaited POST request: a response body, or a thrown error
whose optional chain err.response data error collapses to an optional
string. -/
inductive GenOutcome where
  | success (body : GenResponseBody)
  | failure (errField : Option String)

/-- The final page state produced by handleGenerate in GeneratorPage.js
(lines 41 to 67): the three result states are cleared up front; on success
the timetable and the statistics are set from the response body with the
JS fallback to 0; on failure only the error message is set, with the JS
fallback to the fixed message. -/
def handleGenerate : GenOutcome → PageState
  | .success body =>
      { timetable := body.schedule
        generationStats := some
          { totalSlots := jsOrNat (body.schedule.bind RespSchedule.totalSlots) 0
            assignedSlots := jsOrNat (body.schedule.bind RespSchedule.assignedSlots) 0
            conflicts := jsOrNat (body.schedule.bind RespSchedule.conflicts) 0 }
        errorMsg := "" }
  | .failure e =>
      { timetable := none
        generationStats := none
        errorMsg := jsOrStr e "An error occurred during generation." }

/-- The JavaScript toLowerCase of a string, character by character. -/
def lowerStr (s : String) : String :=
  ⟨s.data.map Char.toLower⟩

/-- The JavaScript String.includes check: some prefix of some suffix of the
haystack is the pattern. -/
def containsSub (hay pat : String) : Bool :=
  (List.range (hay.data.length + 1)).any fun i => pat.data.isPrefixOf (hay.data.drop i)

/-- Substring occurrence as a proposition: the haystack splits around the
pattern. -/
def SubStrP (pat hay : String) : Prop :=
  ∃ pre post, hay.data = pre ++ (pat.data ++ post)

/-- One room record as RoomList.js receives it. -/
structure JSRoom where
  name : String
  type : String
  capacity : Nat
deriving DecidableEq, Repr

/-- The sort keys offered by the RoomList sort selector. -/
inductive RoomKey where
  | name
  | type
  | capacity
deriving DecidableEq, Repr

/-- The sort order toggle. -/
inductive SortOrd where
  | asc
  | desc
deriving DecidableEq, Repr

/-- The search predicate of filteredAndSortedRooms in RoomList.js (lines 23
to 53): name or type contains the term case-insensitively, or the decimal
string of the capacity contains the term. -/
def matchesSearch (term : String) (r : JSRoom) : Bool :=
  containsSub (lowerStr r.name) (lowerStr term) ||
  containsSub (lowerStr r.type) (lowerStr term) ||
  containsSub (toString r.capacity) term

/-- The type filter of filteredAndSortedRooms: empty filter admits all. -/
def matchesType (tf : String) (r : JSRoom) : Bool :=
  decide (tf = "") || decide (r.type = tf)

/-- The comparison key of the RoomList sort comparator: name and type are
compared as lowercased strings, capacity numerically. -/
def roomKeyLE (key : RoomKey) (a b : JSRoom) : Bool :=
  match key with
  | .name => decide (lowerStr a.name ≤ lowerStr b.name)
  | .type => decide (lowerStr a.type ≤ lowerStr b.type)
  | .capacity => decide (a.capacity ≤ b.capacity)

/-- The full RoomList comparator, reversed for the descending order. -/
def roomLE (key : RoomKey) (ord : SortOrd) (a b : JSRoom) : Bool :=
  match ord with
  | .asc => roomKeyLE key a b
  | .desc => roomKeyLE key b a

/-- The intended ordering relation of the sorted room list, stated at the
propositional level. -/
def RoomOrd (key : RoomKey) (ord : SortOrd) (a b : JSRoom) : Prop :=
  match ord, key with
  | .asc, .name => lowerStr a.name ≤ lowerStr b.name
  | .asc, .type => lowerStr a.type ≤ lowerStr b.type
  | .asc, .capacity => a.capacity ≤ b.capacity
  | .desc, .name => lowerStr b.name ≤ lowerStr a.name
  | .desc, .type => lowerStr b.type ≤ lowerStr a.type
  | .desc, .capacity => b.capacity ≤ a.capacity

/-- The filteredAndSortedRooms memo of RoomList.js: filter by search term
and type filter, then stable sort by the selected comparator. -/
def filteredAndSortedRooms (rooms : List JSRoom) (term tf : String)
    (key : RoomKey) (ord : SortOrd) : List JSRoom :=
  Timetable.isortB (roomLE key ord)
    (rooms.filter fun r => matchesSearch term r && matchesType tf r)

/-- One qualification entry of a faculty record: a bare string or an object
carrying a name, as FacultyList.js distinguishes by typeof. -/
inductive Qual where
  | plain (s : String)
  | tagged (n : String)
deriving DecidableEq, Repr

/-- The display name of a qualification entry. -/
def qualName : Qual → String
  | .plain s => s
  | .tagged n => n

/-- One faculty record as FacultyList.js receives it. -/
structure JSFaculty where
  name : String
  email : String
  phone : Option String
  department : String
  maxHoursPerWeek : Nat
  qualifications : Option (List Qual)
deriving DecidableEq, Repr

/-- The search predicate of filteredAndSortedFaculties in FacultyList.js:
name or email case-insensitively, a present phone literally, or some
qualification name case-insensitively. -/
def matchesSearchF (term : String) (f : JSFaculty) : Bool :=
  containsSub (lowerStr f.name) (lowerStr term) ||
  containsSub (lowerStr f.email) (lowerStr term) ||
  (match f.phone with
   | some p => containsSub p term
   | none => false) ||
  (match f.qualifications with
   | some qs => qs.any fun q => containsSub (lowerStr (qualName q)) (lowerStr term)
   | none => false)

/-- The department filter of FacultyList.js: empty filter admits all. -/
def matchesDept (df : String) (f : JSFaculty) : Bool :=
  decide (df = "") || decide (f.department = df)

/-- The sort keys offered by the FacultyList sort selector. -/
inductive FacKey where
  | name
  | department
  | email
  | maxHours
deriving DecidableEq, Repr

/-- The comparison key of the FacultyList sort comparator. -/
def facKeyLE (key : FacKey) (a b : JSFaculty) : Bool :=
  match key with
  | .name => decide (lowerStr a.name ≤ lowerStr b.name)
  | .department => decide (lowerStr a.department ≤ lowerStr b.department)
  | .email => decide (lowerStr a.email ≤ lowerStr b.email)
  | .maxHours => decide (a.maxHoursPerWeek ≤ b.maxHoursPerWeek)

/-- The full FacultyList comparator, reversed for the descending order. -/
def facLE (key : FacKey) (ord : SortOrd) (a b : JSFaculty) : Bool :=
  match ord with
  | .asc => facKeyLE key a b
  | .desc => facKeyLE key b a

/-- The filteredAndSortedFaculties memo of FacultyList.js (lines 27 to 57). -/
def filteredAndSortedFaculties (faculties : List JSFaculty) (term df : String)
    (key : FacKey) (ord : SortOrd) : List JSFaculty :=
  Timetable.isortB (facLE key ord)
    (faculties.filter fun f => matchesSearchF term f && matchesDept df f)

/-- The totalPages computation of FacultyList.js line 60, the JS ceiling of
the division written with Nat arithmetic. -/
def totalPages (len per : Nat) : Nat :=
  (len + per - 1) / per

/-- The slice(startIndex, startIndex + itemsPerPage) of FacultyList.js
lines 61 to 62. -/
def pageSlice (l : List JSFaculty) (page per : Nat) : List JSFaculty :=
  (l.drop ((page - 1) * per)).take per

/-- The paginatedFaculties memo of FacultyList.js: the current page of the
filtered and sorted faculty list. -/
def paginatedFaculties (faculties : List JSFaculty) (term df : String)
    (key : FacKey) (ord : SortOrd) (page per : Nat) : List JSFaculty :=
  pageSlice (filteredAndSortedFaculties faculties term df key ord) page per

end Frontend

namespace Timetable

theorem mem_insertB {le : α → α → Bool} {a x : α} {l : List α} :
    x ∈ insertB le a l ↔ x = a ∨ x ∈ l := by
  induction l with
  | nil => simp [insertB]
  | cons b l ih =>
      by_cases h : le a b = true <;> simp [insertB, h, ih] <;> tauto

theorem mem_isortB {le : α → α → Bool} {x : α} {l : List α} :
    x ∈ isortB le l ↔ x ∈ l := by
  induction l with
  | nil => simp [isortB]
  | cons a l ih => simp [isortB, mem_insertB, ih]

theorem mem_rotateL {k : Nat} {l : List α} {x : α} :
    x ∈ rotateL k l ↔ x ∈ l := by
  unfold rotateL
  constructor
  · intro h
    rcases List.mem_append.mp h with h | h
    · exact List.drop_subset _ _ h
    · exact List.take_subset _ _ h
  · intro h
    rw [← List.take_append_drop (k % l.length) l] at h
    rcases List.mem_append.mp h with h | h
    · exact List.mem_append.mpr (Or.inr h)
    · exact List.mem_append.mpr (Or.inl h)

theorem busyF_false {committed : List Assignment} {fid d s : Nat}
    (h : busyF committed fid d s = false) :
    ∀ a ∈ committed, ¬(a.facultyId = fid ∧ a.day = d ∧ a.slot = s) := by
  intro a ha
  simp only [busyF, List.any_eq_false, decide_eq_true_eq] at h
  exact h a ha

theorem busyR_false {committed : List Assignment} {rid d s : Nat}
    (h : busyR committed rid d s = false) :
    ∀ a ∈ committed, ¬(a.roomId = rid ∧ a.day = d ∧ a.slot = s) := by
  intro a ha
  simp only [busyR, List.any_eq_false, decide_eq_true_eq] at h
  exact h a ha

theorem busyB_false {committed : List Assignment} {bid d s : Nat}
    (h : busyB committed bid d s = false) :
    ∀ a ∈ committed, ¬(a.batchId = bid ∧ a.day = d ∧ a.slot = s) := by
  intro a ha
  simp only [busyB, List.any_eq_false, decide_eq_true_eq] at h
  exact h a ha

theorem feasibleB_iff {committed : List Assignment} {u : SessionUnit}
    {f : Faculty} {r : Room} {d s : Nat} :
    feasibleB committed u f r d s = true ↔
      u.subjectId ∈ f.qualifiedSubjects ∧
      (d, s) ∉ f.unavailability ∧
      hoursOf committed f.fid + u.duration ≤ f.maxHoursPerWeek ∧
      busyF committed f.fid d s = false ∧
      u.strength ≤ r.capacity ∧
      busyR committed r.rid d s = false ∧
      busyB committed u.batchId d s = false := by
  simp [feasibleB, and_assoc]

theorem mem_candidatesFor {inp : Input} {committed : List Assignment}
    {u : SessionUnit} {a : Assignment} (h : a ∈ candidatesFor inp committed u) :
    ∃ f ∈ inp.faculties, ∃ r ∈ inp.rooms, ∃ d s,
      feasibleB committed u f r d s = true ∧ a = mkAssign u f r d s := by
  unfold candidatesFor at h
  rcases List.mem_flatMap.mp h with ⟨f, hf, h⟩
  rcases List.mem_flatMap.mp h with ⟨r, hr, h⟩
  rcases List.mem_filterMap.mp h with ⟨ds, _, hds⟩
  by_cases hfe : feasibleB committed u f r ds.1 ds.2 = true
  · rw [if_pos hfe] at hds
    exact ⟨f, mem_isortB.mp hf, r, mem_isortB.mp hr, ds.1, ds.2,
      hfe, (Option.some_inj.mp hds).symm⟩
  · rw [if_neg hfe] at hds
    exact absurd hds (by simp)

theorem mem_expandUnits {inp : Input} {u : SessionUnit}
    (h : u ∈ expandUnits inp) : SrcUnit inp u := by
  unfold expandUnits at h
  rcases List.mem_flatMap.mp h with ⟨b, hb, h⟩
  rcases List.mem_flatMap.mp h with ⟨sid, _, h⟩
  rcases List.mem_flatMap.mp h with ⟨s, hs, h⟩
  have hs' := List.mem_filter.mp hs
  have := (List.mem_replicate.mp h).2
  subst this
  exact ⟨b, hb, s, hs'.1, rfl, rfl, rfl, rfl⟩

theorem buildModel_ok {inp : Input} {m : Model} (h : buildModel inp = .ok m) :
    m.inp = inp ∧ ∀ u ∈ m.units, SrcUnit inp u := by
  unfold buildModel at h
  split at h
  · exact absurd h (by simp)
  · split at h
    · exact absurd h (by simp)
    · split at h
      · exact absurd h (by simp)
      · cases Except.ok.inj h
        exact ⟨rfl, fun u hu => mem_expandUnits (mem_isortB.mp hu)⟩

theorem dfs_invariant (inp : Input) (k : Nat) (P : List Assignment → Prop)
    (step : ∀ committed u a, SrcUnit inp u → a ∈ candidatesFor inp committed u →
      P committed → P (committed ++ [a])) :
    ∀ units committed, (∀ u ∈ units, SrcUnit inp u) → P committed →
      ∀ x ∈ dfs inp k units committed, P x := by
  intro units
  induction units with
  | nil =>
      intro committed _ hP x hx
      simp only [dfs, List.mem_singleton] at hx
      exact hx ▸ hP
  | cons u rest ih =>
      intro committed hsrc hP x hx
      simp only [dfs, List.mem_cons, List.mem_flatMap] at hx
      rcases hx with rfl | ⟨a, ha, hx⟩
      · exact hP
      · have ha' : a ∈ candidatesFor inp committed u := mem_rotateL.mp ha
        exact ih (committed ++ [a])
          (fun v hv => hsrc v (List.mem_cons_of_mem _ hv))
          (step committed u a (hsrc u (List.mem_cons_self _ _)) ha' hP) x hx

theorem foldl_better_mem :
    ∀ (l : List (List Assignment)) (init : List Assignment),
      l.foldl better init = init ∨ l.foldl better init ∈ l := by
  intro l
  induction l with
  | nil => intro init; simp
  | cons x xs ih =>
      intro init
      simp only [List.foldl_cons]
      rcases ih (better init x) with h | h
      · rw [h]
        unfold better
        split
        · exact Or.inr (List.mem_cons_self _ _)
        · exact Or.inl rfl
      · exact Or.inr (List.mem_cons_of_mem _ h)

theorem bestOf_valid (P : List Assignment → Prop) (hnil : P [])
    {l : List (List Assignment)} (h : ∀ x ∈ l, P x) : P (bestOf l) := by
  unfold bestOf
  rcases foldl_better_mem l [] with heq | hmem
  · rw [heq]; exact hnil
  · exact h _ hmem

theorem runSearch_valid (m : Model) (fuel k : Nat)
    (P : List Assignment → Prop) (hnil : P [])
    (hstep : ∀ committed u a, SrcUnit m.inp u →
      a ∈ candidatesFor m.inp committed u → P committed → P (committed ++ [a]))
    (hunits : ∀ u ∈ m.units, SrcUnit m.inp u) :
    P (runSearch m fuel k) := by
  unfold runSearch
  refine bestOf_valid P hnil ?_
  intro x hx
  exact dfs_invariant m.inp k P hstep m.units [] hunits hnil x
    (List.take_subset _ _ hx)

theorem mem_dedupAux [DecidableEq α] {seen : List α} {l : List α} {x : α} :
    x ∈ dedupAux seen l → x ∈ l := by
  induction l generalizing seen with
  | nil => simp [dedupAux]
  | cons y ys ih =>
      intro h
      unfold dedupAux at h
      split at h
      · exact List.mem_cons_of_mem _ (ih h)
      · rcases List.mem_cons.mp h with rfl | h
        · exact List.mem_cons_self _ _
        · exact List.mem_cons_of_mem _ (ih h)

theorem generate_ok {inp : Input} {o : GenOpts} {scheds : List Schedule}
    (h : generate inp o = .ok scheds) :
    ∃ m, buildModel inp = .ok m ∧
      scheds = (dedupFirst ((ksOf o).map fun k =>
        runSearch m (fuelOf o) k)).map (mkSchedule m) := by
  unfold generate at h
  cases hb : buildModel inp with
  | error e => rw [hb] at h; exact absurd h (by simp [Except.map])
  | ok m =>
      rw [hb] at h
      simp only [Except.map] at h
      exact ⟨m, rfl, (Except.ok.inj h).symm⟩

theorem mem_generate_ok {inp : Input} {o : GenOpts} {scheds : List Schedule}
    {sched : Schedule} (h : generate inp o = .ok scheds) (hs : sched ∈ scheds) :
    ∃ m, buildModel inp = .ok m ∧
      ∃ k, sched = mkSchedule m (runSearch m (fuelOf o) k) := by
  rcases generate_ok h with ⟨m, hm, rfl⟩
  rcases List.mem_map.mp hs with ⟨asg, hasg, rfl⟩
  have hasg' := mem_dedupAux hasg
  rcases List.mem_map.mp hasg' with ⟨k, _, rfl⟩
  exact ⟨m, hm, k, rfl⟩

theorem noClash_step (key : Assignment → Nat) {l : List Assignment} {a : Assignment}
    (hl : NoClashBy key l) (ha : ∀ b ∈ l, ¬(key b = key a ∧ b.day = a.day ∧ b.slot = a.slot)) :
    NoClashBy key (l ++ [a]) := by
  unfold NoClashBy at *
  rw [List.pairwise_append]
  refine ⟨hl, List.pairwise_singleton _ _, ?_⟩
  intro x hx y hy
  rw [List.mem_singleton] at hy
  subst hy
  exact ha x hx

theorem step_noClash (inp : Input) :
    ∀ committed u a, SrcUnit inp u → a ∈ candidatesFor inp committed u →
      (NoClashBy Assignment.facultyId committed ∧ NoClashBy Assignment.roomId committed ∧
        NoClashBy Assignment.batchId committed) →
      (NoClashBy Assignment.facultyId (committed ++ [a]) ∧
        NoClashBy Assignment.roomId (committed ++ [a]) ∧
        NoClashBy Assignment.batchId (committed ++ [a])) := by
  intro committed u a _ hc ⟨h1, h2, h3⟩
  rcases mem_candidatesFor hc with ⟨f, _, r, _, d, s, hfe, rfl⟩
  rcases feasibleB_iff.mp hfe with ⟨_, _, _, hbf, _, hbr, hbb⟩
  refine ⟨noClash_step _ h1 ?_, noClash_step _ h2 ?_, noClash_step _ h3 ?_⟩
  · intro b hb hcon
    exact busyF_false hbf b hb hcon
  · intro b hb hcon
    exact busyR_false hbr b hb hcon
  · intro b hb hcon
    exact busyB_false hbb b hb hcon

theorem step_wellFormed (inp : Input) :
    ∀ committed u a, SrcUnit inp u → a ∈ candidatesFor inp committed u →
      (∀ x ∈ committed, WellFormedAsg inp x) →
      (∀ x ∈ committed ++ [a], WellFormedAsg inp x) := by
  intro committed u a hsrc hc hP x hx
  rcases List.mem_append.mp hx with hx | hx
  · exact hP x hx
  · rw [List.mem_singleton] at hx
    subst hx
    rcases mem_candidatesFor hc with ⟨f, hf, r, hr, d, s, hfe, rfl⟩
    rcases feasibleB_iff.mp hfe with ⟨hq, hav, _, _, hcap, _, _⟩
    rcases hsrc with ⟨b, hb, subj, _, hbid, hstr, _, _⟩
    refine ⟨⟨f, hf, rfl, hq, hav⟩, ⟨r, hr, b, hb, rfl, ?_, ?_⟩⟩
    · simp [mkAssign, hbid]
    · calc b.strength = u.strength := hstr.symm
        _ ≤ r.capacity := hcap

theorem hoursOf_append {l : List Assignment} {a : Assignment} {fid : Nat} :
    hoursOf (l ++ [a]) fid =
      hoursOf l fid + (if a.facultyId = fid then a.duration else 0) := by
  unfold hoursOf
  rw [List.filter_append, List.map_append, List.sum_append]
  by_cases h : a.facultyId = fid <;> simp [h]

theorem step_hoursOK (inp : Input)
    (hN : (inp.faculties.map Faculty.fid).Nodup) :
    ∀ committed u a, SrcUnit inp u → a ∈ candidatesFor inp committed u →
      HoursOK inp committed → HoursOK inp (committed ++ [a]) := by
  intro committed u a _ hc hP g hg
  rcases mem_candidatesFor hc with ⟨f, hf, r, _, d, s, hfe, rfl⟩
  have hcap := (feasibleB_iff.mp hfe).2.2.1
  rw [hoursOf_append]
  by_cases h : (mkAssign u f r d s).facultyId = g.fid
  · have hfg : f = g := by
      have : f.fid = g.fid := h
      exact List.inj_on_of_nodup_map hN hf hg this
    rw [if_pos h]
    subst hfg
    calc hoursOf committed f.fid + (mkAssign u f r d s).duration
        = hoursOf committed f.fid + u.duration := rfl
      _ ≤ f.maxHoursPerWeek := hcap
  · rw [if_neg h]
    simpa using hP g hg

theorem length_le_foldl_better :
    ∀ (l : List (List Assignment)) (init : List Assignment),
      init.length ≤ (l.foldl better init).length := by
  intro l
  induction l with
  | nil => intro init; simp
  | cons x xs ih =>
      intro init
      simp only [List.foldl_cons]
      refine Nat.le_trans ?_ (ih (better init x))
      unfold better
      split
      · omega
      · exact Nat.le_refl _

theorem bestOf_take_mono {l : List (List Assignment)} {n m : Nat} (h : n ≤ m) :
    (bestOf (l.take n)).length ≤ (bestOf (l.take m)).length := by
  unfold bestOf
  obtain ⟨d, rfl⟩ : ∃ d, m = n + d := ⟨m - n, by omega⟩
  rw [List.take_add, List.foldl_append]
  exact length_le_foldl_better _ _

theorem runSearch_mono {m : Model} {k f1 f2 : Nat} (h : f1 ≤ f2) :
    (runSearch m f1 k).length ≤ (runSearch m f2 k).length := by
  unfold runSearch
  exact bestOf_take_mono h

theorem primaryOut_ok {inp : Input} {o : GenOpts} {m : Model}
    (h : buildModel inp = .ok m) :
    primaryOut inp o = some (mkSchedule m (runSearch m (fuelOf o) 0)) := by
  unfold primaryOut generate ksOf dedupFirst
  rw [h]
  simp [Except.map, dedupAux]

theorem primaryOut_error {inp : Input} {o : GenOpts} {e : ModelError}
    (h : buildModel inp = .error e) :
    primaryOut inp o = none := by
  unfold primaryOut generate
  rw [h]
  simp [Except.map]

end Timetable

namespace Timetable

theorem pairwise_insertB {le : α → α → Bool}
    (htr : ∀ a b c, le a b = true → le b c = true → le a c = true)
    (hto : ∀ a b, le a b = true ∨ le b a = true)
    {l : List α} {a : α} (h : l.Pairwise fun x y => le x y = true) :
    (insertB le a l).Pairwise fun x y => le x y = true := by
  induction l with
  | nil => simp [insertB]
  | cons b l ih =>
      rw [List.pairwise_cons] at h
      by_cases hab : le a b = true
      · simp only [insertB]
        rw [if_pos hab]
        refine List.pairwise_cons.mpr ⟨?_, List.pairwise_cons.mpr h⟩
        intro y hy
        rcases List.mem_cons.mp hy with rfl | hy
        · exact hab
        · exact htr a b y hab (h.1 y hy)
      · simp only [insertB]
        rw [if_neg hab]
        refine List.pairwise_cons.mpr ⟨?_, ih h.2⟩
        intro y hy
        rcases mem_insertB.mp hy with heq | hy
        · rw [heq]
          rcases hto a b with h' | h'
          · exact absurd h' hab
          · exact h'
        · exact h.1 y hy

theorem pairwise_isortB {le : α → α → Bool}
    (htr : ∀ a b c, le a b = true → le b c = true → le a c = true)
    (hto : ∀ a b, le a b = true ∨ le b a = true) (l : List α) :
    (isortB le l).Pairwise fun x y => le x y = true := by
  induction l with
  | nil => simp [isortB]
  | cons a l ih => exact pairwise_insertB htr hto ih

end Timetable

namespace Frontend

theorem containsSub_iff {hay pat : String} :
    containsSub hay pat = true ↔ SubStrP pat hay := by
  unfold containsSub SubStrP
  rw [List.any_eq_true]
  constructor
  · rintro ⟨i, _, hp⟩
    rw [List.isPrefixOf_iff_prefix] at hp
    rcases hp with ⟨t, ht⟩
    refine ⟨hay.data.take i, t, ?_⟩
    rw [ht, List.take_append_drop]
  · rintro ⟨pre, post, hd⟩
    refine ⟨pre.length, List.mem_range.mpr ?_, ?_⟩
    · have : hay.data.length = pre.length + (pat.data.length + post.length) := by
        rw [hd]; simp
      omega
    · rw [List.isPrefixOf_iff_prefix, hd, List.drop_left]
      exact ⟨post, rfl⟩

theorem roomLE_iff {key : RoomKey} {ord : SortOrd} {a b : JSRoom} :
    roomLE key ord a b = true ↔ RoomOrd key ord a b := by
  cases ord <;> cases key <;> simp [roomLE, roomKeyLE, RoomOrd]

theorem roomLE_trans (key : RoomKey) (ord : SortOrd) :
    ∀ a b c, roomLE key ord a b = true → roomLE key ord b c = true →
      roomLE key ord a c = true := by
  intro a b c hab hbc
  cases ord <;> cases key <;>
    simp only [roomLE, roomKeyLE, decide_eq_true_eq] at hab hbc ⊢ <;>
    first
      | exact le_trans hab hbc
      | exact le_trans hbc hab

theorem roomLE_total (key : RoomKey) (ord : SortOrd) :
    ∀ a b, roomLE key ord a b = true ∨ roomLE key ord b a = true := by
  intro a b
  cases ord <;> cases key <;>
    simp only [roomLE, roomKeyLE, decide_eq_true_eq] <;>
    exact le_total _ _

end Frontend

namespace Timetable

theorem hasUnqualifiedSubject_iff {inp : Input} :
    hasUnqualifiedSubject inp = true ↔
      ∃ s ∈ inp.subjects, ∀ f ∈ inp.faculties, s.sid ∉ f.qualifiedSubjects := by
  simp [hasUnqualifiedSubject, List.any_eq_true]

theorem hasOversizedBatch_iff {inp : Input} :
    hasOversizedBatch inp = true ↔
      ∃ b ∈ inp.batches, ∀ r ∈ inp.rooms, r.capacity < b.strength := by
  simp [hasOversizedBatch, List.any_eq_true]

theorem hasBrokenRef_iff {inp : Input} :
    hasBrokenRef inp = true ↔
      ∃ b ∈ inp.batches, ∃ sid ∈ b.subjectIds, ∀ s ∈ inp.subjects, s.sid ≠ sid := by
  simp [hasBrokenRef, List.any_eq_true]

theorem buildModel_error_iff {inp : Input} :
    (∃ e, buildModel inp = .error e) ↔
      (hasUnqualifiedSubject inp = true ∨ hasOversizedBatch inp = true ∨
        hasBrokenRef inp = true) := by
  unfold buildModel
  by_cases h1 : hasUnqualifiedSubject inp = true
  · rw [if_pos h1]
    simp [h1]
  · rw [if_neg h1]
    by_cases h2 : hasOversizedBatch inp = true
    · rw [if_pos h2]
      simp [h2]
    · rw [if_neg h2]
      by_cases h3 : hasBrokenRef inp = true
      · rw [if_pos h3]
        simp [h3]
      · rw [if_neg h3]
        simp [h1, h2, h3]

theorem generate_error_iff {inp : Input} {o : GenOpts} :
    (∃ e, generate inp o = .error e) ↔ (∃ e, buildModel inp = .error e) := by
  unfold generate
  cases hb : buildModel inp <;> simp [Except.map]

/-- C1: for every schedule returned by a generation run, whether complete or
a best-effort partial result, no two assignments share the same faculty and
the same (day, slot) pair, and the analogous distinctness holds for rooms
and for batches: no double-booking ever appears in output. -/
theorem c1_no_double_booking (inp : Input) (o : GenOpts)
    (scheds : List Schedule) (sched : Schedule)
    (h : generate inp o = Except.ok scheds) (hs : sched ∈ scheds) :
    NoClashBy Assignment.facultyId sched.assignments ∧
    NoClashBy Assignment.roomId sched.assignments ∧
    NoClashBy Assignment.batchId sched.assignments := by
  rcases mem_generate_ok h hs with ⟨m, hm, k, rfl⟩
  rcases buildModel_ok hm with ⟨hinp, hunits⟩
  exact runSearch_valid m (fuelOf o) k
    (fun l => NoClashBy Assignment.facultyId l ∧ NoClashBy Assignment.roomId l ∧
      NoClashBy Assignment.batchId l)
    ⟨List.Pairwise.nil, List.Pairwise.nil, List.Pairwise.nil⟩
    (by rw [hinp]; exact step_noClash inp)
    (by rw [hinp]; exact hunits)

/-- Witness for C1: a concrete run on the sample input returns one schedule
with two assignments, and its no-double-booking property holds. -/
theorem c1_witness :
    generate sampleInput sampleOpts = Except.ok [sampleSched] ∧
    (NoClashBy Assignment.facultyId sampleSched.assignments ∧
      NoClashBy Assignment.roomId sampleSched.assignments ∧
      NoClashBy Assignment.batchId sampleSched.assignments) :=
  ⟨by rfl, c1_no_double_booking sampleInput sampleOpts [sampleSched] sampleSched
    (by rfl) (List.mem_singleton.mpr rfl)⟩

/-- C2: every assignment of every returned schedule is made by a faculty of
the input that is qualified for the subject and available at the slot, and
in a room of the input whose capacity covers the strength of the batch. -/
theorem c2_assignment_constraints (inp : Input) (o : GenOpts)
    (scheds : List Schedule) (sched : Schedule) (a : Assignment)
    (h : generate inp o = Except.ok scheds) (hs : sched ∈ scheds)
    (ha : a ∈ sched.assignments) :
    (∃ f ∈ inp.faculties, f.fid = a.facultyId ∧
      a.subjectId ∈ f.qualifiedSubjects ∧ (a.day, a.slot) ∉ f.unavailability) ∧
    (∃ r ∈ inp.rooms, ∃ b ∈ inp.batches,
      r.rid = a.roomId ∧ b.bid = a.batchId ∧ b.strength ≤ r.capacity) := by
  rcases mem_generate_ok h hs with ⟨m, hm, k, rfl⟩
  rcases buildModel_ok hm with ⟨hinp, hunits⟩
  have hall := runSearch_valid m (fuelOf o) k
    (fun l => ∀ x ∈ l, WellFormedAsg m.inp x)
    (by intro x hx; cases hx)
    (step_wellFormed m.inp)
    (by rw [hinp]; exact hunits)
  have := hall a ha
  rw [hinp] at this
  exact this

/-- Witness for C2: the first assignment of the concrete sample schedule
satisfies the capacity, qualification and availability constraints. -/
theorem c2_witness :
    generate sampleInput sampleOpts = Except.ok [sampleSched] ∧
    ((∃ f ∈ sampleInput.faculties, f.fid = (⟨0, 0, 0, 0, 0, 0, 1⟩ : Assignment).facultyId ∧
        (⟨0, 0, 0, 0, 0, 0, 1⟩ : Assignment).subjectId ∈ f.qualifiedSubjects ∧
        ((⟨0, 0, 0, 0, 0, 0, 1⟩ : Assignment).day, (⟨0, 0, 0, 0, 0, 0, 1⟩ : Assignment).slot) ∉
          f.unavailability) ∧
      (∃ r ∈ sampleInput.rooms, ∃ b ∈ sampleInput.batches,
        r.rid = (⟨0, 0, 0, 0, 0, 0, 1⟩ : Assignment).roomId ∧
        b.bid = (⟨0, 0, 0, 0, 0, 0, 1⟩ : Assignment).batchId ∧ b.strength ≤ r.capacity)) :=
  ⟨by rfl, c2_assignment_constraints sampleInput sampleOpts [sampleSched] sampleSched
    ⟨0, 0, 0, 0, 0, 0, 1⟩ (by rfl) (List.mem_singleton.mpr rfl) (by decide)⟩

/-- C3: in every returned schedule, every faculty of an input with distinct
faculty identifiers carries a total assigned duration within its weekly
hour cap. -/
theorem c3_weekly_hour_cap (inp : Input) (o : GenOpts)
    (scheds : List Schedule) (sched : Schedule) (f : Faculty)
    (hN : (inp.faculties.map Faculty.fid).Nodup)
    (h : generate inp o = Except.ok scheds) (hs : sched ∈ scheds)
    (hf : f ∈ inp.faculties) :
    hoursOf sched.assignments f.fid ≤ f.maxHoursPerWeek := by
  rcases mem_generate_ok h hs with ⟨m, hm, k, rfl⟩
  rcases buildModel_ok hm with ⟨hinp, hunits⟩
  have hall := runSearch_valid m (fuelOf o) k (HoursOK m.inp)
    (by intro g _; simp [hoursOf])
    (by rw [hinp]; exact step_hoursOK inp hN)
    (by rw [hinp]; exact hunits)
  rw [hinp] at hall
  exact hall f hf

/-- Witness for C3: the sole faculty of the sample input stays within its
cap of ten weekly hours on the concrete schedule. -/
theorem c3_witness :
    (sampleInput.faculties.map Faculty.fid).Nodup ∧
    hoursOf sampleSched.assignments 0 ≤ 10 :=
  ⟨by decide, c3_weekly_hour_cap sampleInput sampleOpts [sampleSched] sampleSched
    ⟨0, [0], 10, []⟩ (by decide) (by rfl) (List.mem_singleton.mpr rfl) (by decide)⟩

/-- C4: generate fails with a ModelError exactly when some subject has no
qualified faculty, some batch is too strong for every room, or some batch
references an absent subject; search-budget exhaustion never produces an
error; in particular scenario B (strength 50, sole capacity 40) yields the
ModelError at model-build time. -/
theorem c4_model_error_conditions :
    (∀ (inp : Input) (o : GenOpts),
      (∃ e, generate inp o = Except.error e) ↔
        ((∃ s ∈ inp.subjects, ∀ f ∈ inp.faculties, s.sid ∉ f.qualifiedSubjects) ∨
         (∃ b ∈ inp.batches, ∀ r ∈ inp.rooms, r.capacity < b.strength) ∨
         (∃ b ∈ inp.batches, ∃ sid ∈ b.subjectIds, ∀ s ∈ inp.subjects, s.sid ≠ sid))) ∧
    generate scenarioB sampleOpts = Except.error ModelError.strengthExceedsAllRooms := by
  constructor
  · intro inp o
    rw [generate_error_iff, buildModel_error_iff,
      hasUnqualifiedSubject_iff, hasOversizedBatch_iff, hasBrokenRef_iff]
  · rfl

/-- C5: the primary schedule of a generation request is determined by the
input together with the exploration bounds alone; in particular two runs
with identical input and options, whatever the seed, agree on it. -/
theorem c5_deterministic_primary (inp : Input) (o1 o2 : GenOpts)
    (hb : o1.backtrackBudget = o2.backtrackBudget) (ht : o1.timeLimit = o2.timeLimit) :
    primaryOut inp o1 = primaryOut inp o2 := by
  cases hm : buildModel inp with
  | error e => rw [primaryOut_error hm, primaryOut_error hm]
  | ok m =>
      rw [primaryOut_ok hm, primaryOut_ok hm]
      have : fuelOf o1 = fuelOf o2 := by unfold fuelOf; omega
      rw [this]

/-- Witness for C5: on the sample input, two runs differing only in seed and
alternative count give the same primary schedule. -/
theorem c5_witness :
    primaryOut sampleInput ⟨1, 0, 10, 0⟩ = primaryOut sampleInput ⟨3, 0, 10, 99⟩ :=
  c5_deterministic_primary sampleInput ⟨1, 0, 10, 0⟩ ⟨3, 0, 10, 99⟩ rfl rfl

/-- C6: for a fixed input, raising the backtrack budget or the time limit
never decreases the assigned-slot count of the primary schedule and never
increases its conflict count. -/
theorem c6_budget_monotone (inp : Input) (o1 o2 : GenOpts) (s1 s2 : Schedule)
    (hb : o1.backtrackBudget ≤ o2.backtrackBudget) (ht : o1.timeLimit ≤ o2.timeLimit)
    (h1 : primaryOut inp o1 = some s1) (h2 : primaryOut inp o2 = some s2) :
    s1.assignedSlots ≤ s2.assignedSlots ∧ s2.conflicts ≤ s1.conflicts := by
  cases hm : buildModel inp with
  | error e =>
      rw [primaryOut_error hm] at h1
      cases h1
  | ok m =>
      rw [primaryOut_ok hm] at h1 h2
      obtain rfl := Option.some_inj.mp h1
      obtain rfl := Option.some_inj.mp h2
      have hf : fuelOf o1 ≤ fuelOf o2 := by unfold fuelOf; omega
      have hlen := runSearch_mono (m := m) (k := 0) hf
      exact ⟨hlen, Nat.sub_le_sub_left hlen _⟩

/-- Witness for C6: on the sample input, fuel zero yields the empty partial
schedule and a larger budget yields the full one, in the monotone direction. -/
theorem c6_witness :
    (⟨[], 2, 0, 2⟩ : Schedule).assignedSlots ≤ sampleSched.assignedSlots ∧
    sampleSched.conflicts ≤ (⟨[], 2, 0, 2⟩ : Schedule).conflicts :=
  c6_budget_monotone sampleInput ⟨1, 0, 0, 0⟩ ⟨1, 0, 10, 0⟩ ⟨[], 2, 0, 2⟩ sampleSched
    (by decide) (by decide) (by rfl) (by rfl)

end Timetable

namespace Frontend

theorem jsOrNat_some {n : Nat} : jsOrNat (some n) 0 = n := by
  by_cases h : n = 0
  · subst h
    rfl
  · simp [jsOrNat, h]

/-- C7: after a successful generate request, the statistics recorded by
handleGenerate equal the totalSlots, assignedSlots and conflicts fields of
the returned schedule exactly, with 0 substituted for a missing field or a
missing schedule. -/
theorem c7_stats_from_schedule (body : GenResponseBody) (stats : GenStats)
    (h : (handleGenerate (GenOutcome.success body)).generationStats = some stats) :
    (∀ sch, body.schedule = some sch →
      (∀ n, sch.totalSlots = some n → stats.totalSlots = n) ∧
      (sch.totalSlots = none → stats.totalSlots = 0) ∧
      (∀ n, sch.assignedSlots = some n → stats.assignedSlots = n) ∧
      (sch.assignedSlots = none → stats.assignedSlots = 0) ∧
      (∀ n, sch.conflicts = some n → stats.conflicts = n) ∧
      (sch.conflicts = none → stats.conflicts = 0)) ∧
    (body.schedule = none → stats = ⟨0, 0, 0⟩) := by
  simp only [handleGenerate] at h
  obtain rfl := Option.some_inj.mp h
  constructor
  · intro sch hsch
    rw [hsch]
    refine ⟨?_, ?_, ?_, ?_, ?_, ?_⟩
    · intro n hn
      simp [Option.bind, hn, jsOrNat_some]
    · intro hn
      simp [Option.bind, hn, jsOrNat]
    · intro n hn
      simp [Option.bind, hn, jsOrNat_some]
    · intro hn
      simp [Option.bind, hn, jsOrNat]
    · intro n hn
      simp [Option.bind, hn, jsOrNat_some]
    · intro hn
      simp [Option.bind, hn, jsOrNat]
  · intro hnone
    rw [hnone]
    rfl

/-- Witness for C7: a concrete response with all three fields present is
recorded verbatim. -/
theorem c7_witness :
    (handleGenerate (GenOutcome.success ⟨some ⟨some 5, some 4, some 1⟩⟩)).generationStats =
      some ⟨5, 4, 1⟩ ∧
    (⟨5, 4, 1⟩ : GenStats).totalSlots = 5 :=
  ⟨by rfl,
    ((c7_stats_from_schedule ⟨some ⟨some 5, some 4, some 1⟩⟩ ⟨5, 4, 1⟩ (by rfl)).1
      ⟨some 5, some 4, some 1⟩ rfl).1 5 rfl⟩

/-- Counterexample to C8 as stated: with the error field present but equal
to the empty string, handleGenerate displays the fixed fallback message,
not the present field. -/
theorem c8_counterexample :
    (handleGenerate (GenOutcome.failure (some ""))).errorMsg =
      "An error occurred during generation." ∧
    ¬((handleGenerate (GenOutcome.failure (some ""))).errorMsg = "") := by
  constructor
  · rfl
  · intro h
    exact absurd h (by decide)

/-- C8 amended: a failing request leaves the timetable and the statistics
cleared, displays the error field when it is present and non-empty, and
displays the fixed fallback message when the field is absent or empty. -/
theorem c8_error_display (e : Option String) :
    (handleGenerate (GenOutcome.failure e)).timetable = none ∧
    (handleGenerate (GenOutcome.failure e)).generationStats = none ∧
    (∀ s, e = some s → ¬(s = "") →
      (handleGenerate (GenOutcome.failure e)).errorMsg = s) ∧
    ((e = none ∨ e = some "") →
      (handleGenerate (GenOutcome.failure e)).errorMsg =
        "An error occurred during generation.") := by
  refine ⟨rfl, rfl, ?_, ?_⟩
  · intro s hs hne
    rw [hs]
    simp [handleGenerate, jsOrStr, hne]
  · rintro (rfl | rfl) <;> rfl

/-- Witness for C8 amended: a concrete non-empty error field is displayed
verbatim while the timetable stays cleared. -/
theorem c8_witness :
    (handleGenerate (GenOutcome.failure (some "boom"))).errorMsg = "boom" ∧
    (handleGenerate (GenOutcome.failure (some "boom"))).timetable = none :=
  ⟨(c8_error_display (some "boom")).2.2.1 "boom" rfl (by decide),
    (c8_error_display (some "boom")).1⟩

/-- C9: filteredAndSortedRooms contains exactly the input rooms whose name
or type contains the search term case-insensitively or whose decimal
capacity string contains the term, and whose type equals a non-empty type
filter; the result is ordered by the selected key and order, name and type
as lowercased strings and capacity numerically. -/
theorem c9_rooms_filter_sort (rooms : List JSRoom) (term tf : String)
    (key : RoomKey) (ord : SortOrd) :
    (∀ r, r ∈ filteredAndSortedRooms rooms term tf key ord ↔
      (r ∈ rooms ∧
        (SubStrP (lowerStr term) (lowerStr r.name) ∨
          SubStrP (lowerStr term) (lowerStr r.type) ∨
          SubStrP term (toString r.capacity)) ∧
        (tf = "" ∨ r.type = tf))) ∧
    (filteredAndSortedRooms rooms term tf key ord).Pairwise (RoomOrd key ord) := by
  constructor
  · intro r
    unfold filteredAndSortedRooms
    rw [Timetable.mem_isortB, List.mem_filter]
    simp only [Bool.and_eq_true, matchesSearch, matchesType, Bool.or_eq_true,
      decide_eq_true_eq, containsSub_iff, and_assoc, or_assoc]
  · unfold filteredAndSortedRooms
    exact (Timetable.pairwise_isortB (roomLE_trans key ord) (roomLE_total key ord) _).imp
      (fun h => roomLE_iff.mp h)

theorem pageSlice_length_le (l : List JSFaculty) (page per : Nat) :
    (pageSlice l page per).length ≤ per := by
  unfold pageSlice
  rw [List.length_take]
  exact Nat.min_le_left _ _

theorem pageSlice_getElem? (l : List JSFaculty) (page per j : Nat) (hj : j < per) :
    (pageSlice l page per)[j]? = l[(page - 1) * per + j]? := by
  unfold pageSlice
  rw [List.getElem?_take, if_pos hj, List.getElem?_drop]

theorem totalPages_ceil (len per : Nat) (hper : 0 < per) :
    len ≤ totalPages len per * per ∧
      ∀ c, len ≤ c * per → totalPages len per ≤ c := by
  unfold totalPages
  have h1 := Nat.div_add_mod (len + per - 1) per
  have h2 := Nat.mod_lt (len + per - 1) hper
  have h3 := Nat.mul_comm ((len + per - 1) / per) per
  constructor
  · omega
  · intro c hc
    rcases Nat.lt_or_ge c ((len + per - 1) / per) with h | h
    · exfalso
      have h4 : c + 1 ≤ (len + per - 1) / per := h
      have h5 : (c + 1) * per ≤ ((len + per - 1) / per) * per :=
        Nat.mul_le_mul_right per h4
      have h6 : (c + 1) * per = c * per + per := Nat.succ_mul c per
      omega
    · exact h

theorem page_unique (len per i : Nat) (hper : 0 < per) (hi : i < len) :
    ∃! p, 1 ≤ p ∧ p ≤ totalPages len per ∧
      (p - 1) * per ≤ i ∧ i < (p - 1) * per + per := by
  unfold totalPages
  have h4 := Nat.div_add_mod i per
  have h5 := Nat.mod_lt i hper
  have h6 := Nat.mul_comm (i / per) per
  refine ⟨i / per + 1, ⟨Nat.le_add_left 1 _, ?_, ?_, ?_⟩, ?_⟩
  · have h1 := Nat.div_add_mod (len + per - 1) per
    have h2 := Nat.mod_lt (len + per - 1) hper
    rcases Nat.lt_or_ge (i / per) ((len + per - 1) / per) with h | h
    · exact h
    · exfalso
      have h7 : per * ((len + per - 1) / per) ≤ per * (i / per) :=
        Nat.mul_le_mul_left per h
      omega
  · rw [Nat.add_sub_cancel]
    omega
  · rw [Nat.add_sub_cancel]
    omega
  · rintro p ⟨hp1, _, hlo, hhi⟩
    have h := Nat.div_eq_of_lt_le hlo (by rw [Nat.succ_mul]; exact hhi)
    omega

/-- C10: paginatedFaculties is the contiguous slice of the filtered and
sorted faculty list starting at index (currentPage - 1) * itemsPerPage with
length at most itemsPerPage, totalPages is the ceiling of the filtered
length over itemsPerPage, and every index of the filtered list lies in the
range of exactly one page between 1 and totalPages. -/
theorem c10_pagination (faculties : List JSFaculty) (term df : String)
    (key : FacKey) (ord : SortOrd) (page per : Nat) (hper : 0 < per) :
    (paginatedFaculties faculties term df key ord page per).length ≤ per ∧
    (∀ j, j < per →
      (paginatedFaculties faculties term df key ord page per)[j]? =
        (filteredAndSortedFaculties faculties term df key ord)[(page - 1) * per + j]?) ∧
    ((filteredAndSortedFaculties faculties term df key ord).length ≤
        totalPages (filteredAndSortedFaculties faculties term df key ord).length per * per ∧
      ∀ c, (filteredAndSortedFaculties faculties term df key ord).length ≤ c * per →
        totalPages (filteredAndSortedFaculties faculties term df key ord).length per ≤ c) ∧
    (∀ i, i < (filteredAndSortedFaculties faculties term df key ord).length →
      ∃! p, 1 ≤ p ∧
        p ≤ totalPages (filteredAndSortedFaculties faculties term df key ord).length per ∧
        (p - 1) * per ≤ i ∧ i < (p - 1) * per + per) := by
  refine ⟨pageSlice_length_le _ _ _, ?_, totalPages_ceil _ _ hper, ?_⟩
  · intro j hj
    exact pageSlice_getElem? _ _ _ _ hj
  · intro i hi
    exact page_unique _ _ _ hper hi

/-- Witness for C10: a concrete three-element faculty list paginated two per
page has a first page of at most two entries. -/
theorem c10_witness :
    0 < 2 ∧
    (paginatedFaculties
      [⟨"a", "a@x", none, "d", 4, none⟩, ⟨"b", "b@x", none, "d", 5, none⟩,
        ⟨"c", "c@x", none, "d", 6, none⟩] "" "" FacKey.name SortOrd.asc 1 2).length ≤ 2 :=
  ⟨by decide,
    (c10_pagination
      [⟨"a", "a@x", none, "d", 4, none⟩, ⟨"b", "b@x", none, "d", 5, none⟩,
        ⟨"c", "c@x", none, "d", 6, none⟩] "" "" FacKey.name SortOrd.asc 1 2 (by decide)).1⟩

end Frontend
